import Mathlib

/-!
# NeoHWSerial: interrupt handlers over the RX/TX ring buffers

A shallow embedding of the two interrupt handlers of `class NeoHWSerial`
(`src/src/NeoHWSerial.h`), `_rx_complete_irq` (lines 144-177) and
`_tx_udr_empty_irq` (lines 180-204), together with the frame they run in,
and of the frame-configuration macros (lines 73-97) with the one-argument
`begin` (line 127).

Modelling conventions.

* The object is a record of its data members.  The six `volatile uint8_t *`
  members address hardware registers; the record holds the content of the
  addressed cell, and a read returns what the cell holds (the in-memory
  register set of the specification, section 9).
* Machine integers are `Nat`.  The library is compiled for AVR only
  (`#if defined(ARDUINO_ARCH_AVR)`, line 28), where `int` and `unsigned int`
  are 16 bits wide; the index types are `uint8_t` or `uint16_t` (lines 62-71).
  Every place where C could wrap or truncate carries an explicit `%`.
* `SERIAL_RX_BUFFER_SIZE` and `SERIAL_TX_BUFFER_SIZE` are build-time macros
  and are passed as parameters; so is the presence of `MPCM0` (`#ifdef`).
* The two arrays are maps from index to byte; only the indices below the
  array size are storage of the object.
* The hook `isr_t` (line 206) is a C function `bool (*)(uint8_t, uint8_t)`;
  it is modelled by its result on the two arguments.
-/

/-! ## Constants supplied by the device headers -/

/-- Modelled from the spec: bit number of the parity-error flag `UPE0` in
status register A. The macro comes from the AVR device header, which is not
part of the sources; the value is bit 2. -/
def UPE0 : Nat := 2

/-- Modelled from the spec: bit number of the transmit-complete flag `TXC0`
in status register A (AVR device header, bit 6). -/
def TXC0 : Nat := 6

/-- Modelled from the spec: bit number of the double-speed flag `U2X0` in
status register A (AVR device header, bit 1). -/
def U2X0 : Nat := 1

/-- Modelled from the spec: bit number of the multiprocessor-communication
flag `MPCM0` in status register A (AVR device header, bit 0), on the targets
that define it. -/
def MPCM0 : Nat := 0

/-- Modelled from the spec: bit number of the transmit-empty interrupt enable
`UDRIE0` in control register B (AVR device header, bit 5). -/
def UDRIE0 : Nat := 5

/-- Modelled from the spec: `bit_is_clear(sfr, bit)` of `avr/sfr_defs.h`,
`!(sfr & (1 << bit))`. -/
def bit_is_clear (sfr bit : Nat) : Bool := sfr &&& (1 <<< bit) == 0

/-- Modelled from the spec: `cbi(sfr, bit)` of `wiring_private.h`,
`sfr &= ~(1 << bit)` on an 8-bit register: the operand is promoted to a
16-bit `int`, masked with the complement, and stored back in 8 bits. -/
def cbi (sfr bit : Nat) : Nat := (sfr &&& (65535 - (1 <<< bit))) % 256

/-! ## Data model -/

/-- Width in bits of `rx_buffer_index_t` / `tx_buffer_index_t` for a buffer of
the given size (lines 62-71): `uint16_t` above 256, `uint8_t` otherwise. -/
def indexBits (size : Nat) : Nat := if size > 256 then 16 else 8

/-! ## Frame configurations (lines 73-97) -/

/-- The macro `SERIAL_5N1` (value `0x00`). -/
def SERIAL_5N1 : Nat := 0x00

/-- The macro `SERIAL_6N1` (value `0x02`). -/
def SERIAL_6N1 : Nat := 0x02

/-- The macro `SERIAL_7N1` (value `0x04`). -/
def SERIAL_7N1 : Nat := 0x04

/-- The macro `SERIAL_8N1` (value `0x06`). -/
def SERIAL_8N1 : Nat := 0x06

/-- The macro `SERIAL_5N2` (value `0x08`). -/
def SERIAL_5N2 : Nat := 0x08

/-- The macro `SERIAL_6N2` (value `0x0A`). -/
def SERIAL_6N2 : Nat := 0x0A

/-- The macro `SERIAL_7N2` (value `0x0C`). -/
def SERIAL_7N2 : Nat := 0x0C

/-- The macro `SERIAL_8N2` (value `0x0E`). -/
def SERIAL_8N2 : Nat := 0x0E

/-- The macro `SERIAL_5E1` (value `0x20`). -/
def SERIAL_5E1 : Nat := 0x20

/-- The macro `SERIAL_6E1` (value `0x22`). -/
def SERIAL_6E1 : Nat := 0x22

/-- The macro `SERIAL_7E1` (value `0x24`). -/
def SERIAL_7E1 : Nat := 0x24

/-- The macro `SERIAL_8E1` (value `0x26`). -/
def SERIAL_8E1 : Nat := 0x26

/-- The macro `SERIAL_5E2` (value `0x28`). -/
def SERIAL_5E2 : Nat := 0x28

/-- The macro `SERIAL_6E2` (value `0x2A`). -/
def SERIAL_6E2 : Nat := 0x2A

/-- The macro `SERIAL_7E2` (value `0x2C`). -/
def SERIAL_7E2 : Nat := 0x2C

/-- The macro `SERIAL_8E2` (value `0x2E`). -/
def SERIAL_8E2 : Nat := 0x2E

/-- The macro `SERIAL_5O1` (value `0x30`). -/
def SERIAL_5O1 : Nat := 0x30

/-- The macro `SERIAL_6O1` (value `0x32`). -/
def SERIAL_6O1 : Nat := 0x32

/-- The macro `SERIAL_7O1` (value `0x34`). -/
def SERIAL_7O1 : Nat := 0x34

/-- The macro `SERIAL_8O1` (value `0x36`). -/
def SERIAL_8O1 : Nat := 0x36

/-- The macro `SERIAL_5O2` (value `0x38`). -/
def SERIAL_5O2 : Nat := 0x38

/-- The macro `SERIAL_6O2` (value `0x3A`). -/
def SERIAL_6O2 : Nat := 0x3A

/-- The macro `SERIAL_7O2` (value `0x3C`). -/
def SERIAL_7O2 : Nat := 0x3C

/-- The macro `SERIAL_8O2` (value `0x3E`). -/
def SERIAL_8O2 : Nat := 0x3E

/-- The data members of `class NeoHWSerial` (lines 102-120 and 212). -/
structure NeoHWSerial where
  /-- content of the register `_ubrrh` points to -/
  _ubrrh : Nat
  /-- content of the register `_ubrrl` points to -/
  _ubrrl : Nat
  /-- content of status register A -/
  _ucsra : Nat
  /-- content of control register B -/
  _ucsrb : Nat
  /-- content of control register C -/
  _ucsrc : Nat
  /-- content of the data register -/
  _udr : Nat
  /-- has any byte been written since `begin()` -/
  _written : Bool
  _rx_buffer_head : Nat
  _rx_buffer_tail : Nat
  _tx_buffer_head : Nat
  _tx_buffer_tail : Nat
  _rx_buffer : Nat → Nat
  _tx_buffer : Nat → Nat
  /-- the installed hook, `none` for the null pointer -/
  _isr : Option (Nat → Nat → Bool)

namespace NeoHWSerial

/-! ## The handlers -/

/-- The index after `i` in a ring of `size` slots, as both handlers compute
it (line 161 `(unsigned int)(_rx_buffer_head + 1) % SERIAL_RX_BUFFER_SIZE`,
line 185 `(_tx_buffer_tail + 1) % SERIAL_TX_BUFFER_SIZE`): the sum in 16-bit
arithmetic, the remainder, and the store into the index type. -/
def next_index (size i : Nat) : Nat :=
  ((i + 1) % 65536 % size) % 2 ^ indexBits size

/-- Receive interrupt handler (lines 144-177).

`saveToBuffer` starts as `true`; `status` and `data` are declared without an
initialiser (line 147), so before any assignment `data` holds an indeterminate
byte, the parameter `data0`.  Only when a hook is installed are `status` and
`data` loaded from the registers (lines 151-152) and the hook's result stored
in `saveToBuffer` (line 153). -/
def _rx_complete_irq (RX_SIZE : Nat) (data0 : Nat) (s : NeoHWSerial) : NeoHWSerial :=
  let saveToBuffer : Bool :=
    match s._isr with
    | some f => f s._udr s._ucsra
    | none => true
  let data : Nat :=
    match s._isr with
    | some _ => s._udr
    | none => data0
  if saveToBuffer then
    if bit_is_clear s._ucsra UPE0 then
      let i := next_index RX_SIZE s._rx_buffer_head
      if i ≠ s._rx_buffer_tail then
        { s with
          _rx_buffer := Function.update s._rx_buffer s._rx_buffer_head data
          _rx_buffer_head := i }
      else s
    else s
  else s

/-- Transmit interrupt handler (lines 180-204); `mpcm0` tells whether the
target defines `MPCM0` (line 194). -/
def _tx_udr_empty_irq (TX_SIZE : Nat) (mpcm0 : Bool) (s : NeoHWSerial) : NeoHWSerial :=
  let c := s._tx_buffer s._tx_buffer_tail
  let tail := next_index TX_SIZE s._tx_buffer_tail
  let ucsra :=
    if mpcm0 then
      ((s._ucsra &&& ((1 <<< U2X0) ||| (1 <<< MPCM0))) ||| (1 <<< TXC0)) % 256
    else
      (s._ucsra &&& ((1 <<< U2X0) ||| (1 <<< TXC0))) % 256
  let ucsrb := if s._tx_buffer_head = tail then cbi s._ucsrb UDRIE0 else s._ucsrb
  { s with
    _tx_buffer_tail := tail
    _udr := c
    _ucsra := ucsra
    _ucsrb := ucsrb }

/-! ## Receive events -/

/-- What the hardware presents at one receive event: the byte in the data
register, the flags in status register A, and the indeterminate content of
the handler's uninitialised local `data`. -/
structure RxEvent where
  udr : Nat
  ucsra : Nat
  data0 : Nat

/-- One receive event: the USART has loaded the data and status registers,
and the receive-complete vector calls the handler (`NeoHWSerial1.cpp`,
lines 44-53). -/
def rx_event (RX_SIZE : Nat) (s : NeoHWSerial) (e : RxEvent) : NeoHWSerial :=
  _rx_complete_irq RX_SIZE e.data0 { s with _udr := e.udr, _ucsra := e.ucsra }

/-- A run of receive events, in order, with nothing else in between. -/
def rx_events (RX_SIZE : Nat) (s : NeoHWSerial) (es : List RxEvent) : NeoHWSerial :=
  es.foldl (rx_event RX_SIZE) s

/-! ## Example states -/

/-- An example line with no hook: both buffers empty at index 0, every slot
holding a stale byte, the byte 0x41 waiting in the data register. -/
def line0 : NeoHWSerial :=
  { _ubrrh := 0, _ubrrl := 103, _ucsra := 0x20, _ucsrb := 0x98, _ucsrc := 0x06,
    _udr := 0x41, _written := false,
    _rx_buffer_head := 0, _rx_buffer_tail := 0,
    _tx_buffer_head := 0, _tx_buffer_tail := 0,
    _rx_buffer := fun _ => 0x55, _tx_buffer := fun _ => 0xAA,
    _isr := none }

/-- A hook that passes every byte on to the buffer. -/
def hook_true : Nat → Nat → Bool := fun _ _ => true

/-- A hook that keeps every byte for itself. -/
def hook_false : Nat → Nat → Bool := fun _ _ => false

/-! ## `begin` and the names of the frame configurations -/

/-- The one-argument `begin` (line 127), `begin(baud, SERIAL_8N1)`. The
two-argument `begin` is only declared in the header (line 128); its body is
not part of the sources and is taken as the parameter `begin2`. -/
def begin (begin2 : Nat → Nat → NeoHWSerial → NeoHWSerial) (baud : Nat)
    (s : NeoHWSerial) : NeoHWSerial :=
  begin2 baud SERIAL_8N1 s

/-- Number of data bits in a frame, the digit in the macro names. -/
inductive DataBits where
  | five
  | six
  | seven
  | eight
  deriving DecidableEq

/-- Parity of a frame, the letter in the macro names: none, even, odd. -/
inductive Parity where
  | N
  | E
  | O
  deriving DecidableEq

/-- Number of stop bits in a frame, the last digit in the macro names. -/
inductive StopBits where
  | one
  | two
  deriving DecidableEq

/-- The number a `DataBits` stands for. -/
def DataBits.toNat : DataBits → Nat
  | .five => 5
  | .six => 6
  | .seven => 7
  | .eight => 8

/-- The number a `StopBits` stands for. -/
def StopBits.toNat : StopBits → Nat
  | .one => 1
  | .two => 2

/-- The macro `SERIAL_<d><p><s>` of lines 74-97 that is named after the given
data bits, parity and stop bits. -/
def SERIAL : DataBits → Parity → StopBits → Nat
  | .five, .N, .one => SERIAL_5N1
  | .six, .N, .one => SERIAL_6N1
  | .seven, .N, .one => SERIAL_7N1
  | .eight, .N, .one => SERIAL_8N1
  | .five, .N, .two => SERIAL_5N2
  | .six, .N, .two => SERIAL_6N2
  | .seven, .N, .two => SERIAL_7N2
  | .eight, .N, .two => SERIAL_8N2
  | .five, .E, .one => SERIAL_5E1
  | .six, .E, .one => SERIAL_6E1
  | .seven, .E, .one => SERIAL_7E1
  | .eight, .E, .one => SERIAL_8E1
  | .five, .E, .two => SERIAL_5E2
  | .six, .E, .two => SERIAL_6E2
  | .seven, .E, .two => SERIAL_7E2
  | .eight, .E, .two => SERIAL_8E2
  | .five, .O, .one => SERIAL_5O1
  | .six, .O, .one => SERIAL_6O1
  | .seven, .O, .one => SERIAL_7O1
  | .eight, .O, .one => SERIAL_8O1
  | .five, .O, .two => SERIAL_5O2
  | .six, .O, .two => SERIAL_6O2
  | .seven, .O, .two => SERIAL_7O2
  | .eight, .O, .two => SERIAL_8O2

/-! ## Index arithmetic -/

theorem mod_of_lt_two_mul {a C : Nat} (h : a < 2 * C) :
    (a < C ∧ a % C = a) ∨ (C ≤ a ∧ a % C = a - C) := by
  by_cases hlt : a < C
  · exact Or.inl ⟨hlt, Nat.mod_eq_of_lt hlt⟩
  · right
    refine ⟨by omega, ?_⟩
    rw [Nat.mod_eq_sub_mod (by omega)]
    exact Nat.mod_eq_of_lt (by omega)

/-- Inside a buffer that the index type can address, the handlers' index step
is the successor modulo the size: nothing wraps at 16 bits and nothing is cut
off by the store into the index type. -/
theorem next_index_eq {C i : Nat} (hC : C ≤ 65536) (hi : i < C) :
    next_index C i = (i + 1) % C := by
  have hlt : (i + 1) % C < C := Nat.mod_lt _ (by omega)
  unfold next_index indexBits
  by_cases h1 : i + 1 = 65536
  · have hC' : C = 65536 := by omega
    subst hC'
    simp [h1]
  · rw [Nat.mod_eq_of_lt (show i + 1 < 65536 by omega)]
    split
    · exact Nat.mod_eq_of_lt (by norm_num; omega)
    · exact Nat.mod_eq_of_lt (by norm_num; omega)

/-- The macro `bit_is_clear` tests the named bit of the register value. -/
theorem bit_is_clear_eq (v b : Nat) : bit_is_clear v b = !v.testBit b := by
  unfold bit_is_clear
  rw [Nat.one_shiftLeft, Nat.and_two_pow]
  cases h : v.testBit b <;> simp

theorem parity_clear {v : Nat} (h : v.testBit UPE0 = false) :
    bit_is_clear v UPE0 = true := by
  rw [bit_is_clear_eq]; simp [h]

theorem parity_set {v : Nat} (h : v.testBit UPE0 = true) :
    bit_is_clear v UPE0 = false := by
  rw [bit_is_clear_eq]; simp [h]

/-! ## The receive handler, branch by branch -/

/-- The byte the handler has in its local `data` when it reaches line 168. -/
theorem rx_store {C d : Nat} {s : NeoHWSerial}
    (hsave : ∀ f, s._isr = some f → f s._udr s._ucsra = true)
    (hpar : bit_is_clear s._ucsra UPE0 = true)
    (hroom : next_index C s._rx_buffer_head ≠ s._rx_buffer_tail) :
    _rx_complete_irq C d s =
      { s with
        _rx_buffer := Function.update s._rx_buffer s._rx_buffer_head
          (match s._isr with
           | some _ => s._udr
           | none => d)
        _rx_buffer_head := next_index C s._rx_buffer_head } := by
  unfold _rx_complete_irq
  cases hi : s._isr with
  | none => simp [hpar, hroom]
  | some f => simp [hsave f hi, hpar, hroom]

theorem rx_drop_full {C d : Nat} {s : NeoHWSerial}
    (hfull : next_index C s._rx_buffer_head = s._rx_buffer_tail) :
    _rx_complete_irq C d s = s := by
  unfold _rx_complete_irq
  simp [hfull]

theorem rx_drop_parity {C d : Nat} {s : NeoHWSerial}
    (hpar : bit_is_clear s._ucsra UPE0 = false) :
    _rx_complete_irq C d s = s := by
  unfold _rx_complete_irq
  simp [hpar]

theorem rx_drop_hook {C d : Nat} {s : NeoHWSerial} {f : Nat → Nat → Bool}
    (hi : s._isr = some f) (hf : f s._udr s._ucsra = false) :
    _rx_complete_irq C d s = s := by
  unfold _rx_complete_irq
  simp [hi, hf]

/-! ## Runs of receive events that store every byte -/

/-- The count `(head - tail) mod C` of a ring buffer, by the order of the two
indices. -/
theorem count_cases {C h t : Nat} (hh : h < C) (ht : t < C) :
    (t ≤ h ∧ ((h : Int) - (t : Int)) % (C : Int) = (h : Int) - (t : Int)) ∨
    (h < t ∧ ((h : Int) - (t : Int)) % (C : Int) = (h : Int) - (t : Int) + (C : Int)) := by
  by_cases hle : t ≤ h
  · left
    exact ⟨hle, Int.emod_eq_of_lt (by omega) (by omega)⟩
  · right
    refine ⟨by omega, ?_⟩
    rw [← Int.add_emod_self]
    exact Int.emod_eq_of_lt (by omega) (by omega)

theorem add_mod_ne_self {C t m : Nat} (ht : t < C) (hm0 : 0 < m) (hm : m < C) :
    (t + m) % C ≠ t := by
  rcases mod_of_lt_two_mul (show t + m < 2 * C by omega) with ⟨_, h⟩ | ⟨_, h⟩ <;> omega

theorem add_mod_inj {C t j k : Nat} (ht : t < C) (hj : j < C) (hk : k < C)
    (h : (t + j) % C = (t + k) % C) : j = k := by
  rcases mod_of_lt_two_mul (show t + j < 2 * C by omega) with ⟨_, h1⟩ | ⟨_, h1⟩ <;>
  rcases mod_of_lt_two_mul (show t + k < 2 * C by omega) with ⟨_, h2⟩ | ⟨_, h2⟩ <;> omega

theorem iterate_next {C t : Nat} (k : Nat) :
    (fun i => (i + 1) % C)^[k] t % C = (t + k) % C := by
  induction k with
  | zero => simp
  | succ n ih =>
    rw [Function.iterate_succ_apply', Nat.mod_mod, Nat.add_mod, ih]
    simp [Nat.add_assoc]

theorem rx_events_snoc (C : Nat) (s : NeoHWSerial) (es : List RxEvent) (e : RxEvent) :
    rx_events C s (es ++ [e]) = rx_event C (rx_events C s es) e := by
  simp [rx_events, List.foldl_append]

/-- From an empty buffer at index `t`, a run of fewer than `C` events that each
reach the store (no hook or a hook answering `true`, parity flag clear) fills
the slots `t, t+1, ...` in order and moves only the head. -/
theorem rx_events_store {C : Nat} (hC : C ≤ 65536) {t : Nat} (ht : t < C)
    (s : NeoHWSerial) (hhead : s._rx_buffer_head = t) (htail : s._rx_buffer_tail = t)
    (es : List RxEvent) :
    es.length < C →
    (∀ e ∈ es, bit_is_clear e.ucsra UPE0 = true) →
    (∀ e ∈ es, ∀ f, s._isr = some f → f e.udr e.ucsra = true) →
    (rx_events C s es)._isr = s._isr ∧
    (rx_events C s es)._rx_buffer_tail = t ∧
    (rx_events C s es)._rx_buffer_head = (t + es.length) % C ∧
    ∀ k (hk : k < es.length), (rx_events C s es)._rx_buffer ((t + k) % C) =
      match s._isr with
      | some _ => es[k].udr
      | none => es[k].data0 := by
  induction es using List.reverseRecOn with
  | nil =>
    intro _ _ _
    simp [rx_events, hhead, htail, Nat.mod_eq_of_lt ht]
  | append_singleton es e ih =>
    intro hlen hpar hsave
    have hlen' : es.length + 1 < C := by simpa using hlen
    obtain ⟨hisr, htl, hhd, hslots⟩ := ih (by omega)
      (fun x hx => hpar x (by simp [hx])) (fun x hx => hsave x (by simp [hx]))
    have hhdlt : (t + es.length) % C < C := Nat.mod_lt _ (by omega)
    have hnext : next_index C ((t + es.length) % C) = (t + (es.length + 1)) % C := by
      rw [next_index_eq hC hhdlt, Nat.add_mod, Nat.mod_mod, ← Nat.add_mod, Nat.add_assoc]
    have hstep := rx_store (C := C) (d := e.data0)
      (s := { rx_events C s es with _udr := e.udr, _ucsra := e.ucsra })
      (by intro f hf; exact hsave e (by simp) f (by rw [← hisr]; exact hf))
      (hpar e (by simp))
      (by
        show next_index C (rx_events C s es)._rx_buffer_head ≠ (rx_events C s es)._rx_buffer_tail
        rw [hhd, htl, hnext]
        exact add_mod_ne_self ht (by omega) hlen')
    rw [rx_events_snoc, rx_event, hstep]
    refine ⟨hisr, htl, ?_, ?_⟩
    · show next_index C (rx_events C s es)._rx_buffer_head = _
      rw [hhd, hnext, List.length_append, List.length_singleton]
    · intro k hk
      have hk' : k < es.length + 1 := by simpa using hk
      show Function.update (rx_events C s es)._rx_buffer (rx_events C s es)._rx_buffer_head _ _ = _
      rw [hhd, hisr]
      by_cases hkn : k = es.length
      · subst hkn
        rw [Function.update_same]
        cases s._isr <;> simp
      · have hklt : k < es.length := by omega
        have hne : (t + k) % C ≠ (t + es.length) % C := fun h =>
          hkn (add_mod_inj ht (by omega) (by omega) h)
        rw [Function.update_noteq hne, hslots k hklt]
        cases s._isr <;> simp [List.getElem_append_left hklt]

/-- Without a hook the handler never loads the data register: the state it
leaves is the same whatever byte the register holds. -/
theorem rx_no_hook_ignores_udr (C d u : Nat) (s : NeoHWSerial) (hisr : s._isr = none) :
    _rx_complete_irq C d { s with _udr := u } =
      { _rx_complete_irq C d s with _udr := u } := by
  cases s
  simp only at hisr
  subst hisr
  simp only [_rx_complete_irq]
  split_ifs <;> rfl

/-! ## Claims about the receive handler -/

/-- C1 (default receive path stores the received byte): the code departs from
the claim. With no hook installed, indices in range, the parity flag clear and
room in the buffer, the handler advances the head to `(head + 1) mod C` and
leaves the tail alone, but the byte it puts into slot `head` is the content of
its uninitialised local `data` (here 0x7E), not the byte 0x41 held in the data
register: `data = *_udr` (line 152) runs only when a hook is installed. -/
theorem rx_no_hook_stores_uninitialised_data :
    line0._isr = none ∧ line0._rx_buffer_head < 16 ∧ line0._rx_buffer_tail < 16 ∧
    line0._ucsra.testBit UPE0 = false ∧
    (line0._rx_buffer_head + 1) % 16 ≠ line0._rx_buffer_tail ∧
    line0._udr = 0x41 ∧
    (_rx_complete_irq 16 0x7E line0)._rx_buffer line0._rx_buffer_head = 0x7E ∧
    (_rx_complete_irq 16 0x7E line0)._rx_buffer line0._rx_buffer_head ≠ line0._udr ∧
    (_rx_complete_irq 16 0x7E line0)._rx_buffer_head = 1 ∧
    (_rx_complete_irq 16 0x7E line0)._rx_buffer_tail = 0 := by
  refine ⟨rfl, ?_, ?_, ?_, ?_, rfl, ?_, ?_, ?_, ?_⟩ <;> decide

/-- C2 (FIFO law on the RX ring buffer): for a capacity `C` that the index
type can address (`C ≥ 2` is not needed), an empty buffer with
head = tail = `t < C`, and fewer than
`C` receive events whose parity flag is clear and for which the installed hook
answers `true`, the run leaves tail = `t` and head = `(t + N) mod C`, slot
`(t + k) mod C` holds the data-register byte of event `k` (counted from 0), and
reading slot `tail` and advancing the tail modulo `C` `N` times meets these
bytes in order. -/
theorem rx_fifo (C : Nat) (hC : C ≤ 65536)
    (s : NeoHWSerial) (f : Nat → Nat → Bool) (hisr : s._isr = some f)
    (t : Nat) (ht : t < C) (hhead : s._rx_buffer_head = t) (htail : s._rx_buffer_tail = t)
    (es : List RxEvent) (hN : es.length < C)
    (hpar : ∀ e ∈ es, e.ucsra.testBit UPE0 = false)
    (htrue : ∀ e ∈ es, f e.udr e.ucsra = true) :
    (rx_events C s es)._rx_buffer_tail = t ∧
    (rx_events C s es)._rx_buffer_head = (t + es.length) % C ∧
    (∀ k (hk : k < es.length),
      (rx_events C s es)._rx_buffer ((t + k) % C) = es[k].udr) ∧
    (∀ k (hk : k < es.length),
      (rx_events C s es)._rx_buffer
        ((fun i => (i + 1) % C)^[k] (rx_events C s es)._rx_buffer_tail) = es[k].udr) := by
  obtain ⟨_, htl, hhd, hslots⟩ := rx_events_store hC ht s hhead htail es hN
    (fun e he => parity_clear (hpar e he))
    (fun e he g hg => by
      rw [hisr] at hg
      cases hg
      exact htrue e he)
  have hslots' : ∀ k (hk : k < es.length),
      (rx_events C s es)._rx_buffer ((t + k) % C) = es[k].udr := by
    intro k hk
    rw [hslots k hk, hisr]
  refine ⟨htl, hhd, hslots', ?_⟩
  intro k hk
  have hit : (fun i => (i + 1) % C)^[k] t = (t + k) % C := by
    rw [← iterate_next k]
    cases k with
    | zero => simp [Nat.mod_eq_of_lt ht]
    | succ n =>
      rw [Function.iterate_succ_apply', Nat.mod_mod]
  rw [htl, hit]
  exact hslots' k hk

/-- Witness for `rx_fifo`: in a four-slot ring starting at index 3, the bytes
0x41 and 0x42 land in slots 3 and 0 and the head wraps to 1. -/
theorem rx_fifo_witness :
    (rx_events 4 { line0 with _isr := some hook_true, _rx_buffer_head := 3, _rx_buffer_tail := 3 }
      [⟨0x41, 0x20, 0⟩, ⟨0x42, 0x20, 0⟩])._rx_buffer_head = 1 ∧
    (rx_events 4 { line0 with _isr := some hook_true, _rx_buffer_head := 3, _rx_buffer_tail := 3 }
      [⟨0x41, 0x20, 0⟩, ⟨0x42, 0x20, 0⟩])._rx_buffer 3 = 0x41 ∧
    (rx_events 4 { line0 with _isr := some hook_true, _rx_buffer_head := 3, _rx_buffer_tail := 3 }
      [⟨0x41, 0x20, 0⟩, ⟨0x42, 0x20, 0⟩])._rx_buffer 0 = 0x42 := by
  have h := rx_fifo 4 (by decide)
    { line0 with _isr := some hook_true, _rx_buffer_head := 3, _rx_buffer_tail := 3 }
    hook_true rfl 3 (by decide) rfl rfl [⟨0x41, 0x20, 0⟩, ⟨0x42, 0x20, 0⟩] (by decide)
    (by decide) (by intro e _; rfl)
  exact ⟨h.2.1, h.2.2.1 0 (by decide), h.2.2.1 1 (by decide)⟩

/-- C3 (count accuracy for pushes): from an empty RX buffer (head = tail, in
range, size addressable by the index type), after `K < C` receive events with
no hook installed and the parity flag clear on each, `(head - tail) mod C` is
exactly `K`. -/
theorem rx_count_after_pushes (C : Nat) (hC : C ≤ 65536)
    (s : NeoHWSerial) (hisr : s._isr = none)
    (hhead : s._rx_buffer_head < C) (hempty : s._rx_buffer_head = s._rx_buffer_tail)
    (es : List RxEvent) (hK : es.length < C)
    (hpar : ∀ e ∈ es, e.ucsra.testBit UPE0 = false) :
    (((rx_events C s es)._rx_buffer_head : Int) - ((rx_events C s es)._rx_buffer_tail : Int))
      % (C : Int) = (es.length : Int) := by
  obtain ⟨_, htl, hhd, _⟩ := rx_events_store hC hhead s rfl hempty.symm es hK
    (fun e he => parity_clear (hpar e he))
    (fun e _ g hg => by rw [hisr] at hg; cases hg)
  have hlt : (s._rx_buffer_head + es.length) % C < C := Nat.mod_lt _ (by omega)
  rw [htl, hhd]
  rcases count_cases hlt hhead with ⟨h1, h2⟩ | ⟨h1, h2⟩ <;>
  rcases mod_of_lt_two_mul (show s._rx_buffer_head + es.length < 2 * C by omega)
    with ⟨h3, h4⟩ | ⟨h3, h4⟩ <;>
  omega

/-- Witness for `rx_count_after_pushes`: three bytes into the empty 16-slot
buffer of `line0`. -/
theorem rx_count_after_pushes_witness :
    (((rx_events 16 line0 [⟨1, 0, 9⟩, ⟨2, 0, 9⟩, ⟨3, 0, 9⟩])._rx_buffer_head : Int) -
      ((rx_events 16 line0 [⟨1, 0, 9⟩, ⟨2, 0, 9⟩, ⟨3, 0, 9⟩])._rx_buffer_tail : Int))
      % ((16 : Nat) : Int) = 3 :=
  rx_count_after_pushes 16 (by decide) line0 rfl (by decide) rfl
    [⟨1, 0, 9⟩, ⟨2, 0, 9⟩, ⟨3, 0, 9⟩] (by decide) (by decide)

/-- C4 (full buffer drops the newest byte): when the RX buffer holds `C - 1`
bytes (indices in range, `(head + 1) mod C = tail`), a receive event leaves the
whole object as it was, whatever the data byte, the status register and the
hook: head, tail and every slot are unchanged and the count stays `C - 1`. -/
theorem rx_full_drops_newest (C : Nat) (hC : C ≤ 65536) (d : Nat) (s : NeoHWSerial)
    (hhead : s._rx_buffer_head < C) (htail : s._rx_buffer_tail < C)
    (hfull : (s._rx_buffer_head + 1) % C = s._rx_buffer_tail) :
    _rx_complete_irq C d s = s ∧
    (_rx_complete_irq C d s)._rx_buffer_head = s._rx_buffer_head ∧
    (_rx_complete_irq C d s)._rx_buffer_tail = s._rx_buffer_tail ∧
    (_rx_complete_irq C d s)._rx_buffer = s._rx_buffer ∧
    (((_rx_complete_irq C d s)._rx_buffer_head : Int) -
      ((_rx_complete_irq C d s)._rx_buffer_tail : Int)) % (C : Int) = (C : Int) - 1 := by
  have h : _rx_complete_irq C d s = s :=
    rx_drop_full (by rw [next_index_eq hC hhead]; exact hfull)
  rw [h]
  refine ⟨rfl, rfl, rfl, rfl, ?_⟩
  rcases count_cases hhead htail with ⟨h1, h2⟩ | ⟨h1, h2⟩ <;>
  rcases mod_of_lt_two_mul (show s._rx_buffer_head + 1 < 2 * C by omega)
    with ⟨h3, h4⟩ | ⟨h3, h4⟩ <;>
  omega

/-- Witness for `rx_full_drops_newest`: head 4, tail 5 in a 16-slot ring, a
hook that would pass the byte on. -/
theorem rx_full_drops_newest_witness :
    _rx_complete_irq 16 0
        { line0 with _isr := some hook_true, _rx_buffer_head := 4, _rx_buffer_tail := 5 } =
      { line0 with _isr := some hook_true, _rx_buffer_head := 4, _rx_buffer_tail := 5 } :=
  (rx_full_drops_newest 16 (by decide) 0
    { line0 with _isr := some hook_true, _rx_buffer_head := 4, _rx_buffer_tail := 5 }
    (by decide) (by decide) (by decide)).1

/-- C5 (parity-error drop): whenever the parity-error bit of status register A
is set, a receive event leaves the whole object as it was, for every buffer
occupancy and every hook or none: head, tail and storage are unchanged, so
`(head - tail) mod C` does not grow. -/
theorem rx_parity_error_drops (C d : Nat) (s : NeoHWSerial)
    (hpe : s._ucsra.testBit UPE0 = true) :
    _rx_complete_irq C d s = s ∧
    (_rx_complete_irq C d s)._rx_buffer_head = s._rx_buffer_head ∧
    (_rx_complete_irq C d s)._rx_buffer_tail = s._rx_buffer_tail ∧
    (_rx_complete_irq C d s)._rx_buffer = s._rx_buffer ∧
    (((_rx_complete_irq C d s)._rx_buffer_head : Int) -
      ((_rx_complete_irq C d s)._rx_buffer_tail : Int)) % (C : Int) =
      ((s._rx_buffer_head : Int) - (s._rx_buffer_tail : Int)) % (C : Int) := by
  have h : _rx_complete_irq C d s = s := rx_drop_parity (parity_set hpe)
  rw [h]
  exact ⟨rfl, rfl, rfl, rfl, rfl⟩

/-- Witness for `rx_parity_error_drops`: status 0x24 (parity error flagged) on
an empty buffer with a hook that would pass the byte on. -/
theorem rx_parity_error_drops_witness :
    _rx_complete_irq 16 0 { line0 with _isr := some hook_true, _ucsra := 0x24 } =
      { line0 with _isr := some hook_true, _ucsra := 0x24 } :=
  (rx_parity_error_drops 16 0 { line0 with _isr := some hook_true, _ucsra := 0x24 }
    (by decide)).1

/-- C6 (interceptor consumes the byte): with a hook installed that answers
`false` on the data and status registers, a receive event leaves the whole
object as it was, in every state: head, tail and storage are unchanged, and so
is `(head - tail) mod C`. -/
theorem rx_hook_false_consumes (C d : Nat) (s : NeoHWSerial) (f : Nat → Nat → Bool)
    (hisr : s._isr = some f) (hf : f s._udr s._ucsra = false) :
    _rx_complete_irq C d s = s ∧
    (_rx_complete_irq C d s)._rx_buffer_head = s._rx_buffer_head ∧
    (_rx_complete_irq C d s)._rx_buffer_tail = s._rx_buffer_tail ∧
    (_rx_complete_irq C d s)._rx_buffer = s._rx_buffer ∧
    (((_rx_complete_irq C d s)._rx_buffer_head : Int) -
      ((_rx_complete_irq C d s)._rx_buffer_tail : Int)) % (C : Int) =
      ((s._rx_buffer_head : Int) - (s._rx_buffer_tail : Int)) % (C : Int) := by
  have h : _rx_complete_irq C d s = s := rx_drop_hook hisr hf
  rw [h]
  exact ⟨rfl, rfl, rfl, rfl, rfl⟩

/-- Witness for `rx_hook_false_consumes`: an empty buffer with room, no parity
error, and a hook that keeps the byte. -/
theorem rx_hook_false_consumes_witness :
    _rx_complete_irq 16 0 { line0 with _isr := some hook_false } =
      { line0 with _isr := some hook_false } :=
  (rx_hook_false_consumes 16 0 { line0 with _isr := some hook_false } hook_false rfl rfl).1

/-- C7, as stated, fails: a hook that answers `true` for every byte is
installed, the indices are in range and the buffer is empty, so not full, yet
with the parity-error bit set (status 0x24) the receive event does not raise
`(head - tail) mod C` by one; the hook's answer alone does not decide the
store. -/
theorem rx_hook_true_parity_error_not_stored :
    (∀ b st, hook_true b st = true) ∧
    ({ line0 with _isr := some hook_true, _ucsra := 0x24 } : NeoHWSerial)._rx_buffer_head < 16 ∧
    ({ line0 with _isr := some hook_true, _ucsra := 0x24 } : NeoHWSerial)._rx_buffer_tail < 16 ∧
    (({ line0 with _isr := some hook_true, _ucsra := 0x24 } : NeoHWSerial)._rx_buffer_head + 1)
      % 16 ≠
      ({ line0 with _isr := some hook_true, _ucsra := 0x24 } : NeoHWSerial)._rx_buffer_tail ∧
    ¬ ((((_rx_complete_irq 16 0
            { line0 with _isr := some hook_true, _ucsra := 0x24 })._rx_buffer_head : Int) -
          ((_rx_complete_irq 16 0
            { line0 with _isr := some hook_true, _ucsra := 0x24 })._rx_buffer_tail : Int))
          % ((16 : Nat) : Int) =
        ((({ line0 with _isr := some hook_true, _ucsra := 0x24 } :
            NeoHWSerial)._rx_buffer_head : Int) -
          (({ line0 with _isr := some hook_true, _ucsra := 0x24 } :
            NeoHWSerial)._rx_buffer_tail : Int)) % ((16 : Nat) : Int) + 1) := by
  refine ⟨fun _ _ => rfl, ?_, ?_, ?_, ?_⟩ <;> decide

/-- C7, amended (interceptor passes the byte on): with a hook installed that
answers `true`, indices in range and a size the index type can address, if the
parity-error bit is clear a receive event raises `(head - tail) mod C` by
exactly 1 when the buffer is not full and leaves it unchanged when it is full;
if the parity-error bit is set the count is unchanged. The hook's answer and
the parity-error bit together decide whether the byte is stored. -/
theorem rx_hook_true_passes_on (C : Nat) (hC : C ≤ 65536) (d : Nat) (s : NeoHWSerial)
    (f : Nat → Nat → Bool) (hisr : s._isr = some f) (htrue : f s._udr s._ucsra = true)
    (hhead : s._rx_buffer_head < C) (htail : s._rx_buffer_tail < C) :
    (s._ucsra.testBit UPE0 = false →
      ((s._rx_buffer_head + 1) % C ≠ s._rx_buffer_tail →
        (((_rx_complete_irq C d s)._rx_buffer_head : Int) -
          ((_rx_complete_irq C d s)._rx_buffer_tail : Int)) % (C : Int) =
        ((s._rx_buffer_head : Int) - (s._rx_buffer_tail : Int)) % (C : Int) + 1) ∧
      ((s._rx_buffer_head + 1) % C = s._rx_buffer_tail →
        (((_rx_complete_irq C d s)._rx_buffer_head : Int) -
          ((_rx_complete_irq C d s)._rx_buffer_tail : Int)) % (C : Int) =
        ((s._rx_buffer_head : Int) - (s._rx_buffer_tail : Int)) % (C : Int))) ∧
    (s._ucsra.testBit UPE0 = true →
      (((_rx_complete_irq C d s)._rx_buffer_head : Int) -
        ((_rx_complete_irq C d s)._rx_buffer_tail : Int)) % (C : Int) =
      ((s._rx_buffer_head : Int) - (s._rx_buffer_tail : Int)) % (C : Int)) := by
  refine ⟨fun hpar => ⟨fun hroom => ?_, fun hfull => ?_⟩, fun hpe => ?_⟩
  · have hst := rx_store (C := C) (d := d) (s := s)
      (by intro g hg; rw [hisr] at hg; cases hg; exact htrue)
      (parity_clear hpar)
      (by rw [next_index_eq hC hhead]; exact hroom)
    rw [hst]
    show ((next_index C s._rx_buffer_head : Int) - (s._rx_buffer_tail : Int)) % (C : Int) = _
    rw [next_index_eq hC hhead]
    have hlt : (s._rx_buffer_head + 1) % C < C := Nat.mod_lt _ (by omega)
    rcases count_cases hhead htail with ⟨h1, h2⟩ | ⟨h1, h2⟩ <;>
    rcases count_cases hlt htail with ⟨h5, h6⟩ | ⟨h5, h6⟩ <;>
    rcases mod_of_lt_two_mul (show s._rx_buffer_head + 1 < 2 * C by omega)
      with ⟨h3, h4⟩ | ⟨h3, h4⟩ <;>
    omega
  · rw [rx_drop_full (by rw [next_index_eq hC hhead]; exact hfull)]
  · rw [rx_drop_parity (parity_set hpe)]

/-- Witness for `rx_hook_true_passes_on`: the empty 16-slot buffer of `line0`
with a hook that passes every byte on, status 0x20. -/
theorem rx_hook_true_passes_on_witness :
    (((_rx_complete_irq 16 0 { line0 with _isr := some hook_true })._rx_buffer_head : Int) -
      ((_rx_complete_irq 16 0 { line0 with _isr := some hook_true })._rx_buffer_tail : Int))
      % ((16 : Nat) : Int) =
    ((({ line0 with _isr := some hook_true } : NeoHWSerial)._rx_buffer_head : Int) -
      (({ line0 with _isr := some hook_true } : NeoHWSerial)._rx_buffer_tail : Int))
      % ((16 : Nat) : Int) + 1 :=
  ((rx_hook_true_passes_on 16 (by decide) 0 { line0 with _isr := some hook_true }
    hook_true rfl rfl (by decide) (by decide)).1 (by decide)).1 (by decide)

/-- C8 (hook arguments): an installed hook is consulted on the pair (data
register, status register A) and on nothing else. Two hooks that agree on this
pair lead to the same state, the installed hook itself apart; the result does
not depend on the prior content of the local `data`; and whenever the event
changes the object at all, slot `head` (the prior head) holds the data-register
value that was handed to the hook. -/
theorem rx_hook_arguments (C d : Nat) (s : NeoHWSerial) (f g : Nat → Nat → Bool)
    (hfg : f s._udr s._ucsra = g s._udr s._ucsra) :
    _rx_complete_irq C d { s with _isr := some f } =
      { _rx_complete_irq C d { s with _isr := some g } with _isr := some f } ∧
    (∀ d', _rx_complete_irq C d' { s with _isr := some f } =
      _rx_complete_irq C d { s with _isr := some f }) ∧
    (_rx_complete_irq C d { s with _isr := some f } ≠ { s with _isr := some f } →
      (_rx_complete_irq C d { s with _isr := some f })._rx_buffer s._rx_buffer_head =
        s._udr) := by
  refine ⟨?_, ?_, ?_⟩
  · simp only [_rx_complete_irq, hfg]
    split_ifs <;> rfl
  · intro d'
    simp only [_rx_complete_irq]
  · simp only [_rx_complete_irq]
    split_ifs
    · intro _
      exact Function.update_same _ _ _
    all_goals
      intro h
      exact absurd rfl h

/-- Witness for `rx_hook_arguments`: a hook that passes everything on and a
hook that passes on only the byte 0x41 agree on the byte 0x41 that `line0`
holds in its data register. -/
theorem rx_hook_arguments_witness :
    _rx_complete_irq 16 0 { line0 with _isr := some hook_true } =
      { _rx_complete_irq 16 0 { line0 with _isr := some (fun b _ => b == 0x41) } with
        _isr := some hook_true } :=
  (rx_hook_arguments 16 0 line0 hook_true (fun b _ => b == 0x41) (by decide)).1

/-! ## Claims about the transmit handler -/

/-- C9 (transmit handler pops in order): for a size the index type can address
and a TX tail in range, the handler writes to the data register the byte
stored in TX slot `tail` (the prior tail) and sets the tail to
`(tail + 1) mod C`; this holds in particular when the buffer is not empty. -/
theorem tx_pops_in_order (C : Nat) (hC : C ≤ 65536) (mpcm0 : Bool) (s : NeoHWSerial)
    (htail : s._tx_buffer_tail < C) :
    (_tx_udr_empty_irq C mpcm0 s)._udr = s._tx_buffer s._tx_buffer_tail ∧
    (_tx_udr_empty_irq C mpcm0 s)._tx_buffer_tail = (s._tx_buffer_tail + 1) % C := by
  refine ⟨rfl, ?_⟩
  show next_index C s._tx_buffer_tail = _
  exact next_index_eq hC htail

/-- Witness for `tx_pops_in_order`: tail at the last slot of a 16-slot ring
wraps to 0 and the byte of slot 15 goes to the data register. -/
theorem tx_pops_in_order_witness :
    (_tx_udr_empty_irq 16 true
      { line0 with _tx_buffer_head := 2, _tx_buffer_tail := 15 })._udr = 0xAA ∧
    (_tx_udr_empty_irq 16 true
      { line0 with _tx_buffer_head := 2, _tx_buffer_tail := 15 })._tx_buffer_tail = 0 :=
  tx_pops_in_order 16 (by decide) true
    { line0 with _tx_buffer_head := 2, _tx_buffer_tail := 15 } (by decide)

/-- C10 (count accuracy for pops): for TX indices in range, a size the index
type can address and a non-empty TX buffer, one run of the transmit handler
lowers `(head - tail) mod C` by exactly 1, and so raises the free-slot number
`C - 1 - count` by exactly 1. -/
theorem tx_count_decreases (C : Nat) (hC : C ≤ 65536) (mpcm0 : Bool) (s : NeoHWSerial)
    (hhead : s._tx_buffer_head < C) (htail : s._tx_buffer_tail < C)
    (hne : s._tx_buffer_head ≠ s._tx_buffer_tail) :
    (((_tx_udr_empty_irq C mpcm0 s)._tx_buffer_head : Int) -
      ((_tx_udr_empty_irq C mpcm0 s)._tx_buffer_tail : Int)) % (C : Int) =
      ((s._tx_buffer_head : Int) - (s._tx_buffer_tail : Int)) % (C : Int) - 1 ∧
    (C : Int) - 1 - (((_tx_udr_empty_irq C mpcm0 s)._tx_buffer_head : Int) -
      ((_tx_udr_empty_irq C mpcm0 s)._tx_buffer_tail : Int)) % (C : Int) =
      ((C : Int) - 1 - ((s._tx_buffer_head : Int) - (s._tx_buffer_tail : Int)) % (C : Int))
        + 1 := by
  have key : (((_tx_udr_empty_irq C mpcm0 s)._tx_buffer_head : Int) -
      ((_tx_udr_empty_irq C mpcm0 s)._tx_buffer_tail : Int)) % (C : Int) =
      ((s._tx_buffer_head : Int) - (s._tx_buffer_tail : Int)) % (C : Int) - 1 := by
    show ((s._tx_buffer_head : Int) - (next_index C s._tx_buffer_tail : Int)) % (C : Int) = _
    rw [next_index_eq hC htail]
    have hlt : (s._tx_buffer_tail + 1) % C < C := Nat.mod_lt _ (by omega)
    rcases count_cases hhead htail with ⟨h1, h2⟩ | ⟨h1, h2⟩ <;>
    rcases count_cases hhead hlt with ⟨h5, h6⟩ | ⟨h5, h6⟩ <;>
    rcases mod_of_lt_two_mul (show s._tx_buffer_tail + 1 < 2 * C by omega)
      with ⟨h3, h4⟩ | ⟨h3, h4⟩ <;>
    omega
  refine ⟨key, ?_⟩
  rw [key]
  omega

/-- Witness for `tx_count_decreases`: head 2, tail 15 in a 16-slot ring, three
bytes pending, two after the run. -/
theorem tx_count_decreases_witness :
    (((_tx_udr_empty_irq 16 true
        { line0 with _tx_buffer_head := 2, _tx_buffer_tail := 15 })._tx_buffer_head : Int) -
      ((_tx_udr_empty_irq 16 true
        { line0 with _tx_buffer_head := 2, _tx_buffer_tail := 15 })._tx_buffer_tail : Int))
      % ((16 : Nat) : Int) =
    ((({ line0 with _tx_buffer_head := 2, _tx_buffer_tail := 15 } :
        NeoHWSerial)._tx_buffer_head : Int) -
      (({ line0 with _tx_buffer_head := 2, _tx_buffer_tail := 15 } :
        NeoHWSerial)._tx_buffer_tail : Int)) % ((16 : Nat) : Int) - 1 :=
  (tx_count_decreases 16 (by decide) true
    { line0 with _tx_buffer_head := 2, _tx_buffer_tail := 15 }
    (by decide) (by decide) (by decide)).1

/-! ## Register bits the transmit handler writes -/

/-- The value the handler stores in status register A on a target with
`MPCM0`: no bit above bit 6 is set, so the store into the 8-bit register keeps
all of it. -/
theorem tx_ucsra_mpcm0 (C : Nat) (s : NeoHWSerial) :
    (_tx_udr_empty_irq C true s)._ucsra =
      (s._ucsra &&& ((1 <<< U2X0) ||| (1 <<< MPCM0))) ||| (1 <<< TXC0) := by
  show ((s._ucsra &&& ((1 <<< U2X0) ||| (1 <<< MPCM0))) ||| (1 <<< TXC0)) % 256 = _
  apply Nat.mod_eq_of_lt
  have h1 : s._ucsra &&& ((1 <<< U2X0) ||| (1 <<< MPCM0)) < 2 ^ 8 :=
    Nat.lt_of_le_of_lt Nat.and_le_right (by decide)
  exact Nat.or_lt_two_pow h1 (by decide)

/-- The value the handler stores in status register A on a target without
`MPCM0`. -/
theorem tx_ucsra_no_mpcm0 (C : Nat) (s : NeoHWSerial) :
    (_tx_udr_empty_irq C false s)._ucsra =
      s._ucsra &&& ((1 <<< U2X0) ||| (1 <<< TXC0)) := by
  show (s._ucsra &&& ((1 <<< U2X0) ||| (1 <<< TXC0))) % 256 = _
  apply Nat.mod_eq_of_lt
  exact Nat.lt_of_le_of_lt Nat.and_le_right (by decide)

/-- Bits of the macro `cbi` on an 8-bit register: the named bit is cleared and
the other bits below bit 8 are kept. -/
theorem cbi_testBit (v i : Nat) (hi : i < 8) :
    (cbi v UDRIE0).testBit i = (v.testBit i && decide (i ≠ 5)) := by
  have h256 : (256 : Nat) = 2 ^ 8 := by norm_num
  unfold cbi
  rw [h256, Nat.testBit_mod_two_pow, Nat.testBit_and]
  simp only [hi, decide_True, Bool.true_and]
  congr 1
  interval_cases i <;> decide

/-- Bits of the value stored in status register A on a target without
`MPCM0`: bits 6 and 1 keep their prior values and every other bit is 0. -/
theorem tx_status_no_mpcm0_bits (C : Nat) (s : NeoHWSerial) (i : Nat) :
    (_tx_udr_empty_irq C false s)._ucsra.testBit i =
      (s._ucsra.testBit i && (decide (i = 1) || decide (i = 6))) := by
  rw [tx_ucsra_no_mpcm0]
  have h1 : 1 <<< U2X0 = 2 ^ 1 := by decide
  have h6 : 1 <<< TXC0 = 2 ^ 6 := by decide
  rw [h1, h6, Nat.testBit_and, Nat.testBit_or, Nat.testBit_two_pow, Nat.testBit_two_pow]
  congr 2 <;> simp [eq_comm]

/-- The receive handler either leaves the object as it was or, with room in
the buffer, puts one byte in slot `head` and advances the head. -/
theorem rx_cases (C d : Nat) (s : NeoHWSerial) :
    _rx_complete_irq C d s = s ∨
    (next_index C s._rx_buffer_head ≠ s._rx_buffer_tail ∧
      ∃ b, _rx_complete_irq C d s =
        { s with
          _rx_buffer := Function.update s._rx_buffer s._rx_buffer_head b
          _rx_buffer_head := next_index C s._rx_buffer_head }) := by
  unfold _rx_complete_irq
  simp only
  split_ifs with h1 h2 h3
  · exact Or.inr ⟨h3, _, rfl⟩
  · exact Or.inl rfl
  · exact Or.inl rfl
  · exact Or.inl rfl

/-- The handlers' index step lands inside the ring and inside the index type,
for every size. -/
theorem next_index_lt {C i : Nat} (hC : 0 < C) :
    next_index C i < C ∧ next_index C i < 2 ^ indexBits C := by
  unfold next_index
  refine ⟨?_, Nat.mod_lt _ (Nat.two_pow_pos _)⟩
  exact Nat.lt_of_le_of_lt (Nat.mod_le _ _) (Nat.mod_lt _ hC)

/-! ## Claims about the registers the transmit handler writes -/

/-- C11 (status-bit preservation with `MPCM0`): on a target that defines
`MPCM0`, for every prior value `v` of status register A the handler writes
back exactly `(v AND (U2X0-bit OR MPCM0-bit)) OR TXC0-bit`: bit 6 is 1, bits 1
and 0 keep their prior values, and every other bit is 0. -/
theorem tx_status_bits_mpcm0 (C : Nat) (s : NeoHWSerial) :
    (_tx_udr_empty_irq C true s)._ucsra =
      (s._ucsra &&& ((1 <<< U2X0) ||| (1 <<< MPCM0))) ||| (1 <<< TXC0) ∧
    (_tx_udr_empty_irq C true s)._ucsra.testBit 6 = true ∧
    (_tx_udr_empty_irq C true s)._ucsra.testBit 1 = s._ucsra.testBit 1 ∧
    (_tx_udr_empty_irq C true s)._ucsra.testBit 0 = s._ucsra.testBit 0 ∧
    (∀ i, i ≠ 6 → i ≠ 1 → i ≠ 0 →
      (_tx_udr_empty_irq C true s)._ucsra.testBit i = false) := by
  rw [tx_ucsra_mpcm0]
  have hmask : (1 <<< U2X0) ||| (1 <<< MPCM0) = 2 ^ 2 - 1 := by decide
  have hone : 1 <<< TXC0 = 2 ^ 6 := by decide
  refine ⟨rfl, ?_, ?_, ?_, ?_⟩
  · rw [hmask, hone, Nat.testBit_or, Nat.testBit_and, Nat.testBit_two_pow,
      Nat.testBit_two_pow_sub_one]
    simp
  · rw [hmask, hone, Nat.testBit_or, Nat.testBit_and, Nat.testBit_two_pow,
      Nat.testBit_two_pow_sub_one]
    simp
  · rw [hmask, hone, Nat.testBit_or, Nat.testBit_and, Nat.testBit_two_pow,
      Nat.testBit_two_pow_sub_one]
    simp
  · intro i h6 h1 h0
    have h2 : ¬ i < 2 := by omega
    rw [hmask, hone, Nat.testBit_or, Nat.testBit_and, Nat.testBit_two_pow,
      Nat.testBit_two_pow_sub_one]
    simp [h2, Ne.symm h6]

/-- C12 (status-bit preservation without `MPCM0`): the code departs from the
claim. On a target without `MPCM0` the handler writes back
`v AND (U2X0-bit OR TXC0-bit)` (line 197): the transmit-complete bit keeps its
prior value instead of being written as 1. With 0x20 in status register A
(transmit-complete clear) the value written is 0x00, where the branch for
targets with `MPCM0` writes 0x40. -/
theorem tx_status_no_mpcm0_keeps_txc :
    ({ line0 with _tx_buffer_head := 2, _tx_buffer_tail := 15 } : NeoHWSerial)._ucsra = 0x20 ∧
    (_tx_udr_empty_irq 16 false
      { line0 with _tx_buffer_head := 2, _tx_buffer_tail := 15 })._ucsra = 0x00 ∧
    (_tx_udr_empty_irq 16 false
      { line0 with _tx_buffer_head := 2, _tx_buffer_tail := 15 })._ucsra.testBit TXC0 = false ∧
    (_tx_udr_empty_irq 16 true
      { line0 with _tx_buffer_head := 2, _tx_buffer_tail := 15 })._ucsra = 0x40 := by
  refine ⟨?_, ?_, ?_, ?_⟩ <;> decide

/-- C13 (transmit-empty interrupt disabled exactly when the buffer runs
empty): after the transmit handler, if the head equals the new tail then bit 5
(`UDRIE0`) of control register B is clear and the other seven bits have their
prior values; if the head differs from the new tail, control register B is
unchanged. This holds in every state, so in every state with the TX indices in
range. -/
theorem tx_udrie_cleared_when_empty (C : Nat) (mpcm0 : Bool) (s : NeoHWSerial) :
    (_tx_udr_empty_irq C mpcm0 s)._tx_buffer_head = s._tx_buffer_head ∧
    ((_tx_udr_empty_irq C mpcm0 s)._tx_buffer_head =
        (_tx_udr_empty_irq C mpcm0 s)._tx_buffer_tail →
      (_tx_udr_empty_irq C mpcm0 s)._ucsrb.testBit 5 = false ∧
      ∀ i, i < 8 → i ≠ 5 →
        (_tx_udr_empty_irq C mpcm0 s)._ucsrb.testBit i = s._ucsrb.testBit i) ∧
    ((_tx_udr_empty_irq C mpcm0 s)._tx_buffer_head ≠
        (_tx_udr_empty_irq C mpcm0 s)._tx_buffer_tail →
      (_tx_udr_empty_irq C mpcm0 s)._ucsrb = s._ucsrb) := by
  refine ⟨rfl, ?_, ?_⟩
  · intro h
    have h' : s._tx_buffer_head = next_index C s._tx_buffer_tail := h
    have hb : (_tx_udr_empty_irq C mpcm0 s)._ucsrb = cbi s._ucsrb UDRIE0 := by
      show (if s._tx_buffer_head = next_index C s._tx_buffer_tail
        then cbi s._ucsrb UDRIE0 else s._ucsrb) = _
      rw [if_pos h']
    rw [hb]
    refine ⟨?_, ?_⟩
    · rw [cbi_testBit _ _ (by decide)]
      simp
    · intro i hi hne
      rw [cbi_testBit _ _ hi]
      simp [hne]
  · intro h
    have h' : s._tx_buffer_head ≠ next_index C s._tx_buffer_tail := h
    show (if s._tx_buffer_head = next_index C s._tx_buffer_tail
      then cbi s._ucsrb UDRIE0 else s._ucsrb) = _
    rw [if_neg h']

/-! ## Frame of the two handlers -/

/-- C14 (single-producer/single-consumer frame): in every state the receive
handler leaves RX tail, TX head, TX tail, the TX storage, the written flag, the
hook and all six registers unchanged, and changes no RX slot other than slot
`head`; the transmit handler leaves TX head, the TX storage, RX head, RX tail,
the RX storage, the written flag, the hook, the two baud registers and control
register C unchanged. -/
theorem handlers_frame (RX_SIZE TX_SIZE d : Nat) (mpcm0 : Bool) (s : NeoHWSerial) :
    ((_rx_complete_irq RX_SIZE d s)._rx_buffer_tail = s._rx_buffer_tail ∧
      (_rx_complete_irq RX_SIZE d s)._tx_buffer_head = s._tx_buffer_head ∧
      (_rx_complete_irq RX_SIZE d s)._tx_buffer_tail = s._tx_buffer_tail ∧
      (_rx_complete_irq RX_SIZE d s)._tx_buffer = s._tx_buffer ∧
      (_rx_complete_irq RX_SIZE d s)._written = s._written ∧
      (_rx_complete_irq RX_SIZE d s)._isr = s._isr ∧
      (_rx_complete_irq RX_SIZE d s)._ubrrh = s._ubrrh ∧
      (_rx_complete_irq RX_SIZE d s)._ubrrl = s._ubrrl ∧
      (_rx_complete_irq RX_SIZE d s)._ucsra = s._ucsra ∧
      (_rx_complete_irq RX_SIZE d s)._ucsrb = s._ucsrb ∧
      (_rx_complete_irq RX_SIZE d s)._ucsrc = s._ucsrc ∧
      (_rx_complete_irq RX_SIZE d s)._udr = s._udr ∧
      (∀ i, i ≠ s._rx_buffer_head →
        (_rx_complete_irq RX_SIZE d s)._rx_buffer i = s._rx_buffer i)) ∧
    ((_tx_udr_empty_irq TX_SIZE mpcm0 s)._tx_buffer_head = s._tx_buffer_head ∧
      (_tx_udr_empty_irq TX_SIZE mpcm0 s)._tx_buffer = s._tx_buffer ∧
      (_tx_udr_empty_irq TX_SIZE mpcm0 s)._rx_buffer_head = s._rx_buffer_head ∧
      (_tx_udr_empty_irq TX_SIZE mpcm0 s)._rx_buffer_tail = s._rx_buffer_tail ∧
      (_tx_udr_empty_irq TX_SIZE mpcm0 s)._rx_buffer = s._rx_buffer ∧
      (_tx_udr_empty_irq TX_SIZE mpcm0 s)._written = s._written ∧
      (_tx_udr_empty_irq TX_SIZE mpcm0 s)._isr = s._isr ∧
      (_tx_udr_empty_irq TX_SIZE mpcm0 s)._ubrrh = s._ubrrh ∧
      (_tx_udr_empty_irq TX_SIZE mpcm0 s)._ubrrl = s._ubrrl ∧
      (_tx_udr_empty_irq TX_SIZE mpcm0 s)._ucsrc = s._ucsrc) := by
  refine ⟨?_, ⟨rfl, rfl, rfl, rfl, rfl, rfl, rfl, rfl, rfl, rfl⟩⟩
  rcases rx_cases RX_SIZE d s with h | ⟨_, b, h⟩
  · rw [h]
    exact ⟨rfl, rfl, rfl, rfl, rfl, rfl, rfl, rfl, rfl, rfl, rfl, rfl, fun _ _ => rfl⟩
  · rw [h]
    exact ⟨rfl, rfl, rfl, rfl, rfl, rfl, rfl, rfl, rfl, rfl, rfl, rfl,
      fun i hi => Function.update_noteq hi _ _⟩

/-! ## Frame configurations -/

/-- C15 (frame-config table is bit-exact): each of the 24 macros `SERIAL_5N1`
.. `SERIAL_8O2` has the value the specification lists for it, and the
one-argument `begin(baud)` calls the two-argument `begin` with 8N1 = 0x06. -/
theorem frame_config_table :
    (SERIAL_5N1 = 0x00 ∧ SERIAL_6N1 = 0x02 ∧ SERIAL_7N1 = 0x04 ∧ SERIAL_8N1 = 0x06 ∧
      SERIAL_5N2 = 0x08 ∧ SERIAL_6N2 = 0x0A ∧ SERIAL_7N2 = 0x0C ∧ SERIAL_8N2 = 0x0E ∧
      SERIAL_5E1 = 0x20 ∧ SERIAL_6E1 = 0x22 ∧ SERIAL_7E1 = 0x24 ∧ SERIAL_8E1 = 0x26 ∧
      SERIAL_5E2 = 0x28 ∧ SERIAL_6E2 = 0x2A ∧ SERIAL_7E2 = 0x2C ∧ SERIAL_8E2 = 0x2E ∧
      SERIAL_5O1 = 0x30 ∧ SERIAL_6O1 = 0x32 ∧ SERIAL_7O1 = 0x34 ∧ SERIAL_8O1 = 0x36 ∧
      SERIAL_5O2 = 0x38 ∧ SERIAL_6O2 = 0x3A ∧ SERIAL_7O2 = 0x3C ∧ SERIAL_8O2 = 0x3E) ∧
    (∀ (begin2 : Nat → Nat → NeoHWSerial → NeoHWSerial) (baud : Nat) (s : NeoHWSerial),
      begin begin2 baud s = begin2 baud 0x06 s) := by
  refine ⟨by decide, ?_⟩
  intro begin2 baud s
  rfl

/-- C19 (the frame-config table is a field encoding): for all data bits `d`,
parities `p` and stop bits `s`, the macro named `SERIAL_<d><p><s>` equals
`(P << 4) OR ((s - 1) << 3) OR ((d - 5) << 1)` with `P` = 0, 2, 3 for none,
even, odd; the 24 patterns are pairwise distinct, bits 0, 6 and 7 of every
pattern are clear, and the three fields are read back from the pattern by
shifting and masking. -/
theorem frame_config_encoding :
    (∀ (d : DataBits) (p : Parity) (st : StopBits),
      SERIAL d p st =
        ((match p with
          | .N => 0
          | .E => 2
          | .O => 3) <<< 4) ||| ((st.toNat - 1) <<< 3) ||| ((d.toNat - 5) <<< 1)) ∧
    (∀ (d : DataBits) (p : Parity) (st : StopBits) (d2 : DataBits) (p2 : Parity)
        (st2 : StopBits),
      SERIAL d p st = SERIAL d2 p2 st2 → d = d2 ∧ p = p2 ∧ st = st2) ∧
    (∀ (d : DataBits) (p : Parity) (st : StopBits),
      (SERIAL d p st).testBit 0 = false ∧ (SERIAL d p st).testBit 6 = false ∧
      (SERIAL d p st).testBit 7 = false) ∧
    (∀ (d : DataBits) (p : Parity) (st : StopBits),
      (SERIAL d p st >>> 1) % 4 = d.toNat - 5 ∧
      (SERIAL d p st >>> 3) % 2 = st.toNat - 1 ∧
      SERIAL d p st >>> 4 =
        (match p with
          | .N => 0
          | .E => 2
          | .O => 3)) := by
  refine ⟨?_, ?_, ?_, ?_⟩
  · intro d p st
    cases d <;> cases p <;> cases st <;> decide
  · intro d p st d2 p2 st2
    cases d <;> cases p <;> cases st <;> cases d2 <;> cases p2 <;> cases st2 <;> decide
  · intro d p st
    cases d <;> cases p <;> cases st <;> decide
  · intro d p st
    cases d <;> cases p <;> cases st <;> decide

/-! ## Invariants of the ring indices -/

/-- C16 (index-range invariant): if RX head, RX tail, TX head and TX tail are
inside their rings before a run of either handler, they are inside afterwards,
for every size; the only RX slot the receive handler changes and the TX slot
the transmit handler reads lie inside the storage; and for a size whose
indices the index type holds (8 bits up to 256, 16 bits up to 65536) every
index of the ring fits the index type and the step is exactly
`(i + 1) mod C`, nothing truncated and nothing overflowing. -/
theorem index_range_invariant (RX_SIZE TX_SIZE d : Nat) (mpcm0 : Bool) (s : NeoHWSerial)
    (hrh : s._rx_buffer_head < RX_SIZE) (hrt : s._rx_buffer_tail < RX_SIZE)
    (hth : s._tx_buffer_head < TX_SIZE) (htt : s._tx_buffer_tail < TX_SIZE) :
    ((_rx_complete_irq RX_SIZE d s)._rx_buffer_head < RX_SIZE ∧
      (_rx_complete_irq RX_SIZE d s)._rx_buffer_tail < RX_SIZE ∧
      (_rx_complete_irq RX_SIZE d s)._tx_buffer_head < TX_SIZE ∧
      (_rx_complete_irq RX_SIZE d s)._tx_buffer_tail < TX_SIZE) ∧
    ((_tx_udr_empty_irq TX_SIZE mpcm0 s)._rx_buffer_head < RX_SIZE ∧
      (_tx_udr_empty_irq TX_SIZE mpcm0 s)._rx_buffer_tail < RX_SIZE ∧
      (_tx_udr_empty_irq TX_SIZE mpcm0 s)._tx_buffer_head < TX_SIZE ∧
      (_tx_udr_empty_irq TX_SIZE mpcm0 s)._tx_buffer_tail < TX_SIZE) ∧
    (∀ i, (_rx_complete_irq RX_SIZE d s)._rx_buffer i ≠ s._rx_buffer i → i < RX_SIZE) ∧
    (∃ i, i < TX_SIZE ∧ (_tx_udr_empty_irq TX_SIZE mpcm0 s)._udr = s._tx_buffer i) ∧
    (RX_SIZE ≤ 65536 →
      (∀ i, i < RX_SIZE → i < 2 ^ indexBits RX_SIZE) ∧
      ((_rx_complete_irq RX_SIZE d s)._rx_buffer_head = s._rx_buffer_head ∨
        (_rx_complete_irq RX_SIZE d s)._rx_buffer_head =
          (s._rx_buffer_head + 1) % RX_SIZE)) ∧
    (TX_SIZE ≤ 65536 →
      (∀ i, i < TX_SIZE → i < 2 ^ indexBits TX_SIZE) ∧
      (_tx_udr_empty_irq TX_SIZE mpcm0 s)._tx_buffer_tail =
        (s._tx_buffer_tail + 1) % TX_SIZE) := by
  have hfits : ∀ C : Nat, C ≤ 65536 → ∀ i, i < C → i < 2 ^ indexBits C := by
    intro C hC i hi
    unfold indexBits
    split
    · norm_num; omega
    · norm_num; omega
  refine ⟨?_, ⟨hrh, hrt, hth, (next_index_lt (by omega)).1⟩, ?_,
    ⟨s._tx_buffer_tail, htt, rfl⟩, ?_, ?_⟩
  · rcases rx_cases RX_SIZE d s with h | ⟨_, b, h⟩
    · rw [h]; exact ⟨hrh, hrt, hth, htt⟩
    · rw [h]; exact ⟨(next_index_lt (by omega)).1, hrt, hth, htt⟩
  · intro i hi
    rcases rx_cases RX_SIZE d s with h | ⟨_, b, h⟩
    · rw [h] at hi; exact absurd rfl hi
    · rw [h] at hi
      by_cases hih : i = s._rx_buffer_head
      · rw [hih]; exact hrh
      · exact absurd (Function.update_noteq hih _ _) hi
  · intro hC
    refine ⟨hfits RX_SIZE hC, ?_⟩
    rcases rx_cases RX_SIZE d s with h | ⟨_, b, h⟩
    · rw [h]; exact Or.inl rfl
    · rw [h]; exact Or.inr (next_index_eq hC hrh)
  · intro hC
    exact ⟨hfits TX_SIZE hC, next_index_eq hC htt⟩

/-- Witness for `index_range_invariant`: a 256-slot RX ring with the head at
255 (the last value of the 8-bit index) and a 10-slot TX ring with the tail at
9. -/
theorem index_range_invariant_witness :
    (_rx_complete_irq 256 0
      { line0 with _rx_buffer_head := 255, _rx_buffer_tail := 7,
                   _tx_buffer_head := 4, _tx_buffer_tail := 9 })._rx_buffer_head < 256 ∧
    (_tx_udr_empty_irq 10 true
      { line0 with _rx_buffer_head := 255, _rx_buffer_tail := 7,
                   _tx_buffer_head := 4, _tx_buffer_tail := 9 })._tx_buffer_tail < 10 := by
  have h := index_range_invariant 256 10 0 true
    { line0 with _rx_buffer_head := 255, _rx_buffer_tail := 7,
                 _tx_buffer_head := 4, _tx_buffer_tail := 9 }
    (by decide) (by decide) (by decide) (by decide)
  exact ⟨h.1.1, h.2.1.2.2.2⟩

/-- C17 (unread data is never overwritten or lost by a receive event): with
the RX indices in range and a size the index type can address, after a receive
event with any hook or none and any register state, every slot
`(tail + j) mod C` with `j` below the prior count `(head - tail) mod C` holds
what it held before, the count is unchanged or larger by exactly 1, and a
buffer with head different from tail does not end with head equal to tail. -/
theorem rx_keeps_unread (C : Nat) (hC : C ≤ 65536) (d : Nat) (s : NeoHWSerial)
    (hhead : s._rx_buffer_head < C) (htail : s._rx_buffer_tail < C) :
    (∀ j : Nat,
      (j : Int) < ((s._rx_buffer_head : Int) - (s._rx_buffer_tail : Int)) % (C : Int) →
      (_rx_complete_irq C d s)._rx_buffer ((s._rx_buffer_tail + j) % C) =
        s._rx_buffer ((s._rx_buffer_tail + j) % C)) ∧
    ((((_rx_complete_irq C d s)._rx_buffer_head : Int) -
        ((_rx_complete_irq C d s)._rx_buffer_tail : Int)) % (C : Int) =
        ((s._rx_buffer_head : Int) - (s._rx_buffer_tail : Int)) % (C : Int) ∨
      (((_rx_complete_irq C d s)._rx_buffer_head : Int) -
        ((_rx_complete_irq C d s)._rx_buffer_tail : Int)) % (C : Int) =
        ((s._rx_buffer_head : Int) - (s._rx_buffer_tail : Int)) % (C : Int) + 1) ∧
    (s._rx_buffer_head ≠ s._rx_buffer_tail →
      (_rx_complete_irq C d s)._rx_buffer_head ≠
        (_rx_complete_irq C d s)._rx_buffer_tail) := by
  rcases rx_cases C d s with h | ⟨hroom, b, h⟩
  · rw [h]
    exact ⟨fun _ _ => rfl, Or.inl rfl, fun hne => hne⟩
  · rw [h]
    refine ⟨?_, Or.inr ?_, fun _ => hroom⟩
    · intro j hj
      show Function.update s._rx_buffer s._rx_buffer_head b _ = _
      apply Function.update_noteq
      rcases count_cases hhead htail with ⟨h1, h2⟩ | ⟨h1, h2⟩ <;>
      rcases mod_of_lt_two_mul (show s._rx_buffer_tail + j < 2 * C by omega)
        with ⟨h3, h4⟩ | ⟨h3, h4⟩ <;>
      omega
    · show ((next_index C s._rx_buffer_head : Int) - (s._rx_buffer_tail : Int)) % (C : Int) = _
      rw [next_index_eq hC hhead] at hroom ⊢
      have hlt : (s._rx_buffer_head + 1) % C < C := Nat.mod_lt _ (by omega)
      rcases count_cases hhead htail with ⟨h1, h2⟩ | ⟨h1, h2⟩ <;>
      rcases count_cases hlt htail with ⟨h5, h6⟩ | ⟨h5, h6⟩ <;>
      rcases mod_of_lt_two_mul (show s._rx_buffer_head + 1 < 2 * C by omega)
        with ⟨h3, h4⟩ | ⟨h3, h4⟩ <;>
      omega

/-- Witness for `rx_keeps_unread`: a 16-slot ring holding three unread bytes
in slots 14, 15 and 0 (tail 14, head 1); the event stores into slot 1 and the
byte of slot 15 stays. -/
theorem rx_keeps_unread_witness :
    (_rx_complete_irq 16 0x7E
      { line0 with _rx_buffer_head := 1, _rx_buffer_tail := 14 })._rx_buffer ((14 + 1) % 16) =
      ({ line0 with _rx_buffer_head := 1, _rx_buffer_tail := 14 } :
        NeoHWSerial)._rx_buffer ((14 + 1) % 16) :=
  (rx_keeps_unread 16 (by decide) 0x7E
    { line0 with _rx_buffer_head := 1, _rx_buffer_tail := 14 }
    (by decide) (by decide)).1 1 (by decide)

/-- C18 (the transmit handler relies on the non-empty precondition): for a
capacity `C ≥ 2` that the index type can address and an empty TX buffer (head
equal to tail, in range), one run of the transmit handler moves the tail to
`(tail + 1) mod C`, past the head, so that `(head - tail) mod C` becomes
`C - 1`; control register B is unchanged, so `UDRIE0` is not cleared; and the
byte written to the data register is the content of slot `tail`. -/
theorem tx_on_empty_buffer (C : Nat) (hC2 : 2 ≤ C) (hC : C ≤ 65536) (mpcm0 : Bool)
    (s : NeoHWSerial) (htail : s._tx_buffer_tail < C)
    (hempty : s._tx_buffer_head = s._tx_buffer_tail) :
    (_tx_udr_empty_irq C mpcm0 s)._tx_buffer_tail = (s._tx_buffer_tail + 1) % C ∧
    (_tx_udr_empty_irq C mpcm0 s)._tx_buffer_tail ≠
      (_tx_udr_empty_irq C mpcm0 s)._tx_buffer_head ∧
    (((_tx_udr_empty_irq C mpcm0 s)._tx_buffer_head : Int) -
      ((_tx_udr_empty_irq C mpcm0 s)._tx_buffer_tail : Int)) % (C : Int) = (C : Int) - 1 ∧
    (_tx_udr_empty_irq C mpcm0 s)._ucsrb = s._ucsrb ∧
    (_tx_udr_empty_irq C mpcm0 s)._ucsrb.testBit UDRIE0 = s._ucsrb.testBit UDRIE0 ∧
    (_tx_udr_empty_irq C mpcm0 s)._udr = s._tx_buffer s._tx_buffer_tail := by
  have hnext := next_index_eq hC htail
  have hlt : (s._tx_buffer_tail + 1) % C < C := Nat.mod_lt _ (by omega)
  have hne : s._tx_buffer_head ≠ next_index C s._tx_buffer_tail := by
    rw [hnext, hempty]
    rcases mod_of_lt_two_mul (show s._tx_buffer_tail + 1 < 2 * C by omega)
      with ⟨h3, h4⟩ | ⟨h3, h4⟩ <;> omega
  have hb : (_tx_udr_empty_irq C mpcm0 s)._ucsrb = s._ucsrb := by
    show (if s._tx_buffer_head = next_index C s._tx_buffer_tail
      then cbi s._ucsrb UDRIE0 else s._ucsrb) = _
    rw [if_neg hne]
  refine ⟨hnext, fun h => hne h.symm, ?_, hb, by rw [hb], rfl⟩
  show ((s._tx_buffer_head : Int) - (next_index C s._tx_buffer_tail : Int)) % (C : Int) = _
  rw [hnext, hempty]
  rcases count_cases htail hlt with ⟨h1, h2⟩ | ⟨h1, h2⟩ <;>
  rcases mod_of_lt_two_mul (show s._tx_buffer_tail + 1 < 2 * C by omega)
    with ⟨h3, h4⟩ | ⟨h3, h4⟩ <;>
  omega

/-- Witness for `tx_on_empty_buffer`: the empty 16-slot TX ring of `line0`;
after the run 15 bytes seem pending and the stale byte 0xAA is in the data
register. -/
theorem tx_on_empty_buffer_witness :
    (((_tx_udr_empty_irq 16 true line0)._tx_buffer_head : Int) -
      ((_tx_udr_empty_irq 16 true line0)._tx_buffer_tail : Int)) % ((16 : Nat) : Int) =
      ((16 : Nat) : Int) - 1 ∧
    (_tx_udr_empty_irq 16 true line0)._ucsrb = 0x98 ∧
    (_tx_udr_empty_irq 16 true line0)._udr = 0xAA := by
  have h := tx_on_empty_buffer 16 (by decide) (by decide) true line0 (by decide) rfl
  exact ⟨h.2.2.1, h.2.2.2.1, h.2.2.2.2.2⟩

end NeoHWSerial
